import Mathlib

/-!
# Verification of the conversation-bot core

Shallow embedding of the voice-conversation widget
(`src/app/components/SpeechToText.tsx` and `src/app/utils/googleGemini.ts`)
and proofs about its three pieces: the recognition coordinator (transcript
accumulation across interim/final events), the response generator (prompt
shaping and error propagation), and the playback segmenter (word chunking
and sequential speech playback).

Strings are modelled as lists of characters (`Str := List Char`), so that
JavaScript's `String.prototype.split(" ")` and `Array.prototype.join(" ")`
can be embedded as structurally recursive functions with their exact
semantics (in particular `"".split(" ") = [""]`, and consecutive separators
produce empty fragments).
-/

namespace ConvBot

/-- Strings, modelled as lists of characters. -/
abbrev Str := List Char

/-! ## Playback segmenter: chunking (`chunkAndSpeak`, SpeechToText.tsx lines 144-152)

The source splits the text on single spaces (`text.split(" ")`), then groups
the resulting fragments 25 at a time (`words.slice(i, i + chunkSize)`) and
joins each group back with single spaces (`.join(" ")`). -/

/-- The fixed chunk size of `chunkAndSpeak` (`const chunkSize = 25`). -/
def chunkSize : Nat := 25

/-- Embedding of JavaScript `s.split(" ")` on character lists: splits at every
space character, keeping empty fragments, and yields `[[]]` on the empty
string (JavaScript's `"".split(" ")` is `[""]`). -/
def splitOnSpace : Str → List Str
  | [] => [[]]
  | c :: cs =>
    match splitOnSpace cs with
    | [] => [[]]
    | w :: ws => if c = ' ' then [] :: w :: ws else (c :: w) :: ws

/-- Embedding of JavaScript `arr.join(" ")`: concatenates the fragments with a
single space between consecutive fragments. -/
def joinSpace : List Str → Str
  | [] => []
  | [w] => w
  | w :: x :: ws => w ++ ' ' :: joinSpace (x :: ws)

/-- Fuel-indexed grouping of a list into consecutive blocks of `chunkSize`
elements, mirroring the source loop
`for (i = 0; i < words.length; i += chunkSize) chunks.push(words.slice(i, i + chunkSize))`.
The fuel only serves to make the recursion structural; it is always called
with fuel at least the list length, in which case fuel never runs out. -/
def chunksOfFuel {α : Type} : Nat → List α → List (List α)
  | _, [] => []
  | 0, _ :: _ => []
  | f + 1, x :: xs => ((x :: xs).take chunkSize) :: chunksOfFuel f ((x :: xs).drop chunkSize)

/-- Grouping of a list into consecutive blocks of `chunkSize` elements
(the chunk-building loop of `chunkAndSpeak`). -/
def chunksOf {α : Type} (l : List α) : List (List α) := chunksOfFuel l.length l

/-- The chunk list computed by `chunkAndSpeak` for a given input text:
split on single spaces, group 25 fragments at a time, join each group back
with single spaces. -/
def chunkAndSpeakChunks (text : Str) : List Str :=
  (chunksOf (splitOnSpace text)).map joinSpace

/-- Ceiling division on naturals, used to state chunk-count properties. -/
def ceilDiv (a b : Nat) : Nat := (a + b - 1) / b

/-- A character the specification counts as whitespace (space, tab, line feed,
carriage return). Used only for the spec-side word notion. -/
def isWhitespaceChar (c : Char) : Bool :=
  c = ' ' || c = '\t' || c = '\n' || c = '\r'

/-- Splitting at every whitespace character, keeping empty fragments.
Spec-side auxiliary for `specWords`. -/
def splitOnWhitespaceRaw : Str → List Str
  | [] => [[]]
  | c :: cs =>
    match splitOnWhitespaceRaw cs with
    | [] => [[]]
    | w :: ws => if isWhitespaceChar c then [] :: w :: ws else (c :: w) :: ws

/-- Modelled from the spec: the "whitespace-separated words" of a string, as
the claims use the term — maximal non-empty runs of non-whitespace
characters (so the empty string has zero words). This is the spec's notion,
to be compared against the source's single-space split. -/
def specWords (s : Str) : List Str :=
  (splitOnWhitespaceRaw s).filter (fun w => !w.isEmpty)

/-- The statement of claim C1 at a single input string, exactly as the claim
is worded: the number of chunks is the ceiling of (number of
whitespace-separated words) / chunkSize, every chunk but the last has
exactly chunkSize words, and the chunks cover the words in order with no
omission, duplication, or reordering. -/
def claimC1At (s : Str) : Prop :=
  (chunkAndSpeakChunks s).length = ceilDiv (specWords s).length chunkSize
  ∧ ((chunkAndSpeakChunks s).dropLast.all (fun ch => (specWords ch).length == chunkSize)) = true
  ∧ ((chunkAndSpeakChunks s).map specWords).flatten = specWords s

/-! ## Recognition coordinator (SpeechToText.tsx lines 62-142)

The component's React state relevant to recognition and response handling.
`isSpeaking` belongs to the playback segmenter and is modelled there. -/

/-- One recognition result delivered by the speech-recognition capability:
the transcript of its first alternative and its finalization flag. -/
structure RecResult where
  transcript : Str
  isFinal : Bool
  deriving DecidableEq

/-- One `onresult` event: the list of newly available results, in delivery
order (the source iterates from `event.resultIndex` to `results.length`). -/
abbrev RecUpdate := List RecResult

/-- The component state touched by recognition and response generation:
`isListening`, `text` (finalized transcript), `interimResult`,
`isResponding`, and `response` (the AI reply). -/
structure ComponentState where
  isListening : Bool
  text : Str
  interim : Str
  isResponding : Bool
  response : Str
  deriving DecidableEq

/-- The component's initial state (all `useState` initializers). -/
def initialState : ComponentState :=
  { isListening := false, text := [], interim := [], isResponding := false, response := [] }

/-- The partition loop of the `onresult` handler: folds over the newly
available results, appending each final transcript plus a trailing space to
`finalTranscript` and each non-final transcript to `interimTranscript`.
Returns `(interimTranscript, finalTranscript)`. -/
def processResults (ev : RecUpdate) : Str × Str :=
  ev.foldl
    (fun acc r =>
      if r.isFinal then (acc.1, acc.2 ++ r.transcript ++ [' '])
      else (acc.1 ++ r.transcript, acc.2))
    ([], [])

/-- The `onresult` handler: appends the accumulated final transcript to
`text` when it is non-empty (`if (finalTranscript) setText(prev + finalTranscript)`)
and replaces `interimResult` wholesale. -/
def onresult (st : ComponentState) (ev : RecUpdate) : ComponentState :=
  let p := processResults ev
  let st2 := if !p.2.isEmpty then { st with text := st.text ++ p.2 } else st
  { st2 with interim := p.1 }

/-- The `onstart` handler: sets `isListening` to true. -/
def onstart (st : ComponentState) : ComponentState := { st with isListening := true }

/-- The `onend` handler: sets `isListening` to false (and touches nothing
else — in particular it does not clear `interimResult`). -/
def onend (st : ComponentState) : ComponentState := { st with isListening := false }

/-- The `startListening` action's state updates: clears `text` and
`interimResult` before starting a new session. -/
def startListening (st : ComponentState) : ComponentState :=
  { st with text := [], interim := [] }

/-- One full recognition session from the initial state: `startListening`,
the session-start notification, the recognition updates in delivery order,
then the session-end notification. -/
def runSession (updates : List RecUpdate) : ComponentState :=
  onend (updates.foldl onresult (onstart (startListening initialState)))

/-- The spec-side closed form for the finalized transcript: the
concatenation, in delivery order, of every fragment marked final, each
followed by a single trailing space. -/
def finalsText (updates : List RecUpdate) : Str :=
  ((updates.flatten.filter (fun r => r.isFinal)).map (fun r => r.transcript ++ [' '])).flatten

/-- The spec-side closed form for the finalized text contributed by one
update: its final fragments, each followed by a single trailing space. -/
def finalsOfUpdate (ev : RecUpdate) : Str :=
  ((ev.filter (fun r => r.isFinal)).map (fun r => r.transcript ++ [' '])).flatten

/-- The spec-side closed form for the interim text produced by one update:
the concatenation of its non-final fragments. -/
def interimOf (ev : RecUpdate) : Str :=
  ((ev.filter (fun r => !r.isFinal)).map (fun r => r.transcript)).flatten

/-! ## Playback segmenter: sequential playback and stop
(SpeechToText.tsx lines 155-196)

The synthesis capability is modelled by `queued`: the index of the utterance
currently submitted and playing (`window.speechSynthesis.speaking` is
`queued.isSome`). A `finish` event is the capability's completion
notification for the playing utterance; its `onend` callback immediately
plays the next chunk (the `setTimeout(..., -1)` delay is immediate).
Cancellation (`window.speechSynthesis.cancel()`) discards the pending
utterance without emitting a completion notification. `submitted` logs every
utterance passed to `window.speechSynthesis.speak`. -/

/-- The playback state: the computed chunk list, the utterance currently
held by the synthesis capability, the component's `isSpeaking` flag, and the
log of all utterances submitted so far. -/
structure PlaybackState where
  chunks : List Str
  queued : Option Nat
  isSpeaking : Bool
  submitted : List Str
  deriving DecidableEq

/-- The `speakChunk` closure: past the last chunk it sets `isSpeaking` to
false; otherwise it submits chunk `i` to the synthesis capability. -/
def speakChunk (st : PlaybackState) (i : Nat) : PlaybackState :=
  if i ≥ st.chunks.length then { st with isSpeaking := false }
  else { st with queued := some i, submitted := st.submitted ++ [st.chunks.getD i []] }

/-- External playback events: the synthesis capability completing the
current utterance, or the user pressing the stop button. -/
inductive PlayEvent
  | finish
  | stop
  deriving DecidableEq

/-- One playback transition. `finish` fires the playing utterance's `onend`,
which calls `speakChunk` on the next index. `stop` is `stopSpeaking`: if the
capability is speaking, cancel and clear `isSpeaking`; otherwise do
nothing. -/
def playStep (st : PlaybackState) : PlayEvent → PlaybackState
  | PlayEvent.finish =>
    match st.queued with
    | some i => speakChunk { st with queued := none } (i + 1)
    | none => st
  | PlayEvent.stop =>
    if st.queued.isSome then { st with queued := none, isSpeaking := false } else st

/-- Folding a sequence of playback events over a state. -/
def playRun (st : PlaybackState) (events : List PlayEvent) : PlaybackState :=
  events.foldl playStep st

/-- The state after calling `chunkAndSpeak text` with the voice list already
available: compute the chunks, call `speakChunk(0)`, then set `isSpeaking`
to true (in that order, as in the source). -/
def chunkAndSpeakInit (text : Str) : PlaybackState :=
  let st0 : PlaybackState :=
    { chunks := chunkAndSpeakChunks text, queued := none, isSpeaking := false, submitted := [] }
  let st1 := speakChunk st0 0
  { st1 with isSpeaking := true }

/-! ## Response generator (googleGemini.ts, and the response-triggering
effect of SpeechToText.tsx lines 199-221) -/

/-- Failure of the remote generation call (the only failure `generateContent`
can raise once the module has initialized). -/
inductive GenError
  | remoteFailure
  deriving DecidableEq

/-- Failure of module initialization: the API credential is missing
(`throw new Error("Missing Gemini API Key")`). -/
inductive InitError
  | missingKey
  deriving DecidableEq

/-- Module initialization of googleGemini.ts: reads the credential from the
environment and throws at module-evaluation time when it is falsy
(`if (!API_KEY) throw ...`) — that is, both when the environment variable is
absent and when it is set to the empty string. Returns the key with which
the client is constructed. -/
def moduleInit (apiKey : Option Str) : Except InitError Str :=
  match apiKey with
  | none => Except.error InitError.missingKey
  | some k => if k.isEmpty then Except.error InitError.missingKey else Except.ok k

/-- The fixed brevity instruction appended to every prompt
(googleGemini.ts line 36). -/
def brevitySuffix : Str :=
  "you can say in it 2 to 3 sentences only yu don thave to generate a huge response for this.".toList

/-- The hook-local state of `useGeminiAPI`. -/
structure GeminiHookState where
  response : Option Str
  isLoading : Bool
  error : Option GenError
  deriving DecidableEq

/-- Embedding of `generateContent`, parameterized by the remote
text-generation capability `remote`. It clears the hook state, invokes the
remote with the prompt plus the fixed brevity suffix, and records
success or failure; the call's own outcome is returned alongside the
final hook state. -/
def generateContent (remote : Str → Except GenError Str) (st : GeminiHookState) (p : Str) :
    GeminiHookState × Except GenError Str :=
  let st1 : GeminiHookState := { st with response := none, isLoading := true, error := none }
  match remote (p ++ brevitySuffix) with
  | Except.ok t => ({ st1 with response := some t, isLoading := false }, Except.ok t)
  | Except.error e => ({ st1 with error := some e, isLoading := false }, Except.error e)

/-- Boolean success test on `Except`. -/
def isOkE {ε α : Type} : Except ε α → Bool
  | Except.ok _ => true
  | Except.error _ => false

/-- What one run of the response-generation effect produced: the resulting
component state, the number of user-visible failure notifications emitted
(`message.error` calls), whether `generateContent` was actually invoked, and
the text handed to `chunkAndSpeak`, if any. -/
structure EffectOutcome where
  state : ComponentState
  errorsShown : Nat
  called : Bool
  spoken : Option Str
  deriving DecidableEq

/-- Embedding of JavaScript `s.trim()`: strips leading and trailing
whitespace. -/
def jsTrim (s : Str) : Str :=
  ((s.dropWhile isWhitespaceChar).reverse.dropWhile isWhitespaceChar).reverse

/-- The inner `generateAIResponse` function of the effect: when the
finalized transcript is non-blank, it invokes `generateContent`; on success
it stores the reply and hands it to `chunkAndSpeak`, on failure it emits one
`message.error` notification; either way `isResponding` ends false. The
`outcome` argument is the result of the awaited `generateContent` call. -/
def generateAIResponse (st : ComponentState) (outcome : Except GenError Str) : EffectOutcome :=
  if !(jsTrim st.text).isEmpty then
    match outcome with
    | Except.ok r =>
      { state := { st with isResponding := false, response := r },
        errorsShown := 0, called := true, spoken := some r }
    | Except.error _ =>
      { state := { st with isResponding := false },
        errorsShown := 1, called := true, spoken := none }
  else
    { state := st, errorsShown := 0, called := false, spoken := none }

/-- The response-triggering effect body (lines 217-220): run
`generateAIResponse` only when not listening and the finalized transcript is
non-blank. -/
def responseEffect (st : ComponentState) (outcome : Except GenError Str) : EffectOutcome :=
  if !st.isListening && !(jsTrim st.text).isEmpty then generateAIResponse st outcome
  else { state := st, errorsShown := 0, called := false, spoken := none }

/-! ## Lemmas about splitting and joining -/

theorem splitOnSpace_ne_nil (s : Str) : splitOnSpace s ≠ [] := by
  cases s with
  | nil => simp [splitOnSpace]
  | cons c cs =>
    simp only [splitOnSpace]
    cases h : splitOnSpace cs with
    | nil => simp
    | cons w ws =>
      by_cases hc : c = ' ' <;> simp [hc]

theorem joinSpace_cons_cons (w x : Str) (ws : List Str) :
    joinSpace (w :: x :: ws) = w ++ ' ' :: joinSpace (x :: ws) := rfl

theorem joinSpace_splitOnSpace (s : Str) : joinSpace (splitOnSpace s) = s := by
  induction s with
  | nil => rfl
  | cons c cs ih =>
    obtain ⟨w, ws, h⟩ : ∃ w ws, splitOnSpace cs = w :: ws := by
      cases hh : splitOnSpace cs with
      | nil => exact absurd hh (splitOnSpace_ne_nil cs)
      | cons w ws => exact ⟨w, ws, rfl⟩
    rw [h] at ih
    simp only [splitOnSpace, h]
    by_cases hc : c = ' '
    · rw [if_pos hc, joinSpace_cons_cons, ih]
      simp [hc]
    · rw [if_neg hc]
      cases ws with
      | nil => exact congrArg (List.cons c) ih
      | cons x rest =>
        rw [joinSpace_cons_cons] at ih ⊢
        rw [List.cons_append, ih]

theorem joinSpace_append (g m : List Str) (hg : g ≠ []) (hm : m ≠ []) :
    joinSpace (g ++ m) = joinSpace g ++ ' ' :: joinSpace m := by
  induction g with
  | nil => exact absurd rfl hg
  | cons a g ih =>
    cases g with
    | nil =>
      cases m with
      | nil => exact absurd rfl hm
      | cons x ws => simp [joinSpace_cons_cons, joinSpace]
    | cons b rest =>
      have ih2 := ih (by simp)
      rw [List.cons_append] at ih2 ⊢
      rw [List.cons_append, joinSpace_cons_cons, ih2, joinSpace_cons_cons]
      simp [List.append_assoc]

theorem joinSpace_map_joinSpace (gs : List (List Str)) (h : ∀ g ∈ gs, g ≠ []) :
    joinSpace (gs.map joinSpace) = joinSpace gs.flatten := by
  induction gs with
  | nil => rfl
  | cons g gs ih =>
    cases gs with
    | nil => simp [joinSpace]
    | cons g2 rest =>
      have hflat : (g2 :: rest).flatten ≠ [] := by
        have hg2 : g2 ≠ [] := h g2 (by simp)
        cases g2 with
        | nil => exact absurd rfl hg2
        | cons x xs => simp [List.flatten_cons]
      have hg : g ≠ [] := h g (by simp)
      calc joinSpace ((g :: g2 :: rest).map joinSpace)
          = joinSpace g ++ ' ' :: joinSpace ((g2 :: rest).map joinSpace) := by
            simp [joinSpace_cons_cons]
        _ = joinSpace g ++ ' ' :: joinSpace ((g2 :: rest).flatten) := by
            rw [ih (fun x hx => h x (by simp [hx]))]
        _ = joinSpace (g ++ (g2 :: rest).flatten) := by
            rw [joinSpace_append _ _ hg hflat]
        _ = joinSpace ((g :: g2 :: rest).flatten) := by simp

/-! ## Lemmas about chunking -/

theorem chunksOfFuel_flatten {α : Type} (f : Nat) (l : List α) (h : l.length ≤ f) :
    (chunksOfFuel f l).flatten = l := by
  induction f generalizing l with
  | zero =>
    have : l = [] := List.eq_nil_of_length_eq_zero (Nat.le_zero.mp h)
    subst this; rfl
  | succ f ih =>
    cases l with
    | nil => rfl
    | cons x xs =>
      simp only [chunksOfFuel, List.flatten_cons]
      rw [ih _ (by simp [List.length_drop, chunkSize] at h ⊢; omega)]
      exact List.take_append_drop chunkSize (x :: xs)

theorem chunksOfFuel_length {α : Type} (f : Nat) (l : List α) (h : l.length ≤ f) :
    (chunksOfFuel f l).length = ceilDiv l.length chunkSize := by
  induction f generalizing l with
  | zero =>
    have : l = [] := List.eq_nil_of_length_eq_zero (Nat.le_zero.mp h)
    subst this
    simp [chunksOfFuel, ceilDiv, chunkSize]
  | succ f ih =>
    cases l with
    | nil => simp [chunksOfFuel, ceilDiv, chunkSize]
    | cons x xs =>
      simp only [chunksOfFuel, List.length_cons]
      rw [ih _ (by simp [List.length_drop, chunkSize] at h ⊢; omega)]
      simp only [ceilDiv, chunkSize, List.length_drop, List.length_cons]
      omega

theorem chunksOfFuel_mem_ne_nil {α : Type} (f : Nat) (l : List α) (g : List α)
    (hmem : g ∈ chunksOfFuel f l) : g ≠ [] := by
  induction f generalizing l with
  | zero =>
    cases l <;> simp [chunksOfFuel] at hmem
  | succ f ih =>
    cases l with
    | nil => simp [chunksOfFuel] at hmem
    | cons x xs =>
      simp only [chunksOfFuel, List.mem_cons] at hmem
      rcases hmem with hmem | hmem
      · subst hmem
        have : ((x :: xs).take chunkSize).length > 0 := by
          simp [List.length_take, chunkSize]
        exact List.ne_nil_of_length_pos this
      · exact ih _ hmem

theorem chunksOfFuel_ne_nil {α : Type} (f : Nat) (l : List α) (hl : l ≠ [])
    (h : l.length ≤ f) : chunksOfFuel f l ≠ [] := by
  cases l with
  | nil => exact absurd rfl hl
  | cons x xs =>
    cases f with
    | zero => simp at h
    | succ f => simp [chunksOfFuel]

theorem chunksOfFuel_dropLast_all {α : Type} (f : Nat) (l : List α) (h : l.length ≤ f) :
    ((chunksOfFuel f l).dropLast.all (fun g => g.length == chunkSize)) = true := by
  induction f generalizing l with
  | zero =>
    have : l = [] := List.eq_nil_of_length_eq_zero (Nat.le_zero.mp h)
    subst this; rfl
  | succ f ih =>
    cases l with
    | nil => rfl
    | cons x xs =>
      simp only [chunksOfFuel]
      cases hd : (x :: xs).drop chunkSize with
      | nil => simp [chunksOfFuel]
      | cons y ys =>
        have hlend := congrArg List.length hd
        simp only [List.length_drop, List.length_cons] at hlend
        have hlen2 : (y :: ys).length ≤ f := by
          simp only [List.length_cons]
          simp only [List.length_cons, chunkSize] at h hlend
          omega
        obtain ⟨r, rs, hr⟩ : ∃ r rs, chunksOfFuel f (y :: ys) = r :: rs := by
          cases hh : chunksOfFuel f (y :: ys) with
          | nil => exact absurd hh (chunksOfFuel_ne_nil f (y :: ys) (by simp) hlen2)
          | cons r rs => exact ⟨r, rs, rfl⟩
        rw [hr, List.dropLast_cons₂, List.all_cons]
        have htk : ((x :: xs).take chunkSize).length = chunkSize := by
          simp only [List.length_take, List.length_cons]
          simp only [chunkSize] at hlend ⊢
          omega
        have hrec := ih (y :: ys) hlen2
        rw [hr] at hrec
        simp [htk, hrec]

/-! ## Claim theorems for the chunking component -/

/-- C1 counterexample: on the empty string the claim as stated fails — the
code computes one chunk (the empty string), while the empty string has zero
whitespace-separated words and the claim demands `ceil(0/25) = 0` chunks. -/
theorem claim_C1_counterexample : ¬ claimC1At [] := by
  simp only [claimC1At]
  decide

/-- C1 (amended): for every input string `s`, let `frags` be the fragments
of `s` split on single space characters (empty fragments kept, so the empty
string yields one empty fragment and `frags` is never empty; non-space
whitespace is not a separator). Then `chunkAndSpeak` computes exactly
`ceil(frags.length / 25)` chunks; each chunk is the single-space join of one
group of consecutive fragments; every group except possibly the last holds
exactly 25 fragments; and the groups concatenated in order are exactly
`frags` — no omission, duplication, or reordering. -/
theorem claim_C1_amended (s : Str) :
    chunkAndSpeakChunks s = (chunksOf (splitOnSpace s)).map joinSpace
    ∧ (chunkAndSpeakChunks s).length = ceilDiv (splitOnSpace s).length chunkSize
    ∧ ((chunksOf (splitOnSpace s)).dropLast.all (fun g => g.length == chunkSize)) = true
    ∧ (chunksOf (splitOnSpace s)).flatten = splitOnSpace s := by
  refine ⟨rfl, ?_, ?_, ?_⟩
  · simp only [chunkAndSpeakChunks, List.length_map, chunksOf]
    exact chunksOfFuel_length _ _ (Nat.le_refl _)
  · exact chunksOfFuel_dropLast_all _ _ (Nat.le_refl _)
  · exact chunksOfFuel_flatten _ _ (Nat.le_refl _)

/-- C10: joining the chunk sequence computed by `chunkAndSpeak` with single
spaces reconstructs the input string exactly, for every input string
(including the empty string and strings with repeated, leading, or trailing
spaces). -/
theorem claim_C10_join_reconstructs (s : Str) : joinSpace (chunkAndSpeakChunks s) = s := by
  have hmem : ∀ g ∈ chunksOf (splitOnSpace s), g ≠ [] :=
    fun g hg => chunksOfFuel_mem_ne_nil _ _ g hg
  unfold chunkAndSpeakChunks
  rw [joinSpace_map_joinSpace (chunksOf (splitOnSpace s)) hmem]
  rw [show (chunksOf (splitOnSpace s)).flatten = splitOnSpace s from
    chunksOfFuel_flatten _ _ (Nat.le_refl _)]
  exact joinSpace_splitOnSpace s

/-! ## Claim theorems for `chunkAndSpeak` on the empty string -/

/-- C2 counterexample: on the empty string the code does not produce zero
chunks, does not stay silent, and does not leave `isSpeaking` false — it
produces the single chunk `""`, submits that empty utterance, and sets
`isSpeaking` to true. -/
theorem claim_C2_counterexample :
    ¬ ((chunkAndSpeakChunks []).length = 0
       ∧ (chunkAndSpeakInit []).submitted = []
       ∧ (chunkAndSpeakInit []).isSpeaking = false) := by
  decide

/-- C2 (amended): calling `chunkAndSpeak` with the empty string produces
exactly one chunk — the empty string — submits exactly that one empty
utterance to the synthesis capability, and sets `isSpeaking` to true;
`isSpeaking` returns to false once that utterance completes, with nothing
further submitted. -/
theorem claim_C2_amended :
    chunkAndSpeakChunks [] = [[]]
    ∧ (chunkAndSpeakInit []).submitted = [[]]
    ∧ (chunkAndSpeakInit []).isSpeaking = true
    ∧ (playStep (chunkAndSpeakInit []) PlayEvent.finish).isSpeaking = false
    ∧ (playStep (chunkAndSpeakInit []) PlayEvent.finish).submitted = [[]] := by
  decide

/-! ## Lemmas about the recognition coordinator -/

theorem processResults_spec (ev : RecUpdate) (i0 f0 : Str) :
    ev.foldl
      (fun acc r =>
        if r.isFinal then (acc.1, acc.2 ++ r.transcript ++ [' '])
        else (acc.1 ++ r.transcript, acc.2))
      (i0, f0)
    = (i0 ++ interimOf ev, f0 ++ finalsOfUpdate ev) := by
  induction ev generalizing i0 f0 with
  | nil => simp [interimOf, finalsOfUpdate]
  | cons r rest ih =>
    simp only [List.foldl_cons]
    by_cases hf : r.isFinal
    · rw [if_pos hf, ih]
      simp [interimOf, finalsOfUpdate, List.filter_cons, hf, List.append_assoc]
    · rw [if_neg hf, ih]
      simp [interimOf, finalsOfUpdate, List.filter_cons, hf, List.append_assoc]

theorem processResults_eq (ev : RecUpdate) :
    processResults ev = (interimOf ev, finalsOfUpdate ev) := by
  unfold processResults
  simpa using processResults_spec ev [] []

theorem onresult_text (st : ComponentState) (ev : RecUpdate) :
    (onresult st ev).text = st.text ++ finalsOfUpdate ev := by
  unfold onresult
  rw [processResults_eq]
  by_cases he : (finalsOfUpdate ev).isEmpty = true
  · have hf : finalsOfUpdate ev = [] := List.isEmpty_iff.mp he
    simp [hf]
  · simp [he]

theorem onresult_interim (st : ComponentState) (ev : RecUpdate) :
    (onresult st ev).interim = interimOf ev := by
  unfold onresult
  rw [processResults_eq]

theorem finalsText_cons (u : RecUpdate) (us : List RecUpdate) :
    finalsText (u :: us) = finalsOfUpdate u ++ finalsText us := by
  simp [finalsText, finalsOfUpdate, List.flatten_cons, List.filter_append, List.map_append]

theorem foldl_onresult_text (updates : List RecUpdate) (st : ComponentState) :
    (updates.foldl onresult st).text = st.text ++ finalsText updates := by
  induction updates generalizing st with
  | nil => simp [finalsText]
  | cons u us ih =>
    rw [List.foldl_cons, ih, onresult_text, finalsText_cons, List.append_assoc]

/-! ## Claim theorems for the recognition coordinator -/

/-- C3: for every sequence of recognition updates delivered in order, the
finalized transcript after the session ends equals the concatenation, in
delivery order, of exactly the fragments marked final, each followed by a
single trailing space (`finalsText`); non-final fragments never contribute
to it. -/
theorem claim_C3_finalized_transcript (updates : List RecUpdate) :
    (runSession updates).text = finalsText updates := by
  show (updates.foldl onresult (onstart (startListening initialState))).text = finalsText updates
  rw [foldl_onresult_text]
  simp [onstart, startListening, initialState]

/-- C4 counterexample: a session consisting of a single update with one
non-final fragment `"hi"` ends with interim text `"hi"`, not the empty
string — the `onend` handler does not clear the interim text. -/
theorem claim_C4_counterexample :
    (runSession [[{ transcript := ['h', 'i'], isFinal := false }]]).interim ≠ [] := by
  decide

/-- C4 (amended): the session-end notification leaves the interim text
unchanged — after the session ends, the interim text equals the
concatenation of the non-final fragments of the last recognition update
(empty when there were no updates); it is not cleared by the end event, so
it is empty only when that last update carried no non-final fragments. -/
theorem claim_C4_amended (updates : List RecUpdate) :
    (runSession updates).interim = interimOf ((updates.getLast?).getD []) := by
  show (updates.foldl onresult (onstart (startListening initialState))).interim
      = interimOf ((updates.getLast?).getD [])
  induction updates using List.reverseRecOn with
  | nil => simp [onstart, startListening, initialState, interimOf]
  | append_singleton us u ih =>
    rw [List.foldl_append, List.foldl_cons, List.foldl_nil, onresult_interim]
    simp [List.getLast?_concat]

/-! ## Lemmas about playback -/

theorem playStep_idle (st : PlaybackState) (e : PlayEvent) (h : st.queued = none) :
    playStep st e = st := by
  cases e with
  | finish => simp [playStep, h]
  | stop => simp [playStep, h]

theorem playRun_idle (st : PlaybackState) (events : List PlayEvent) (h : st.queued = none) :
    playRun st events = st := by
  induction events with
  | nil => rfl
  | cons e es ih =>
    show playRun (playStep st e) es = st
    rw [playStep_idle st e h]
    exact ih

/-! ## Claim theorem for stopping playback -/

/-- C5: in any playback state in which an utterance is playing (chunk `k` is
held by the synthesis capability), pressing stop sets `isPlaying` to false
immediately, and no later utterance is ever submitted no matter what events
follow — in particular chunk `k + 1` never starts; and in a state where
nothing is playing, stop has no effect at all. -/
theorem claim_C5_stop (st : PlaybackState) (events : List PlayEvent) :
    (st.queued.isSome = true →
      (playStep st PlayEvent.stop).isSpeaking = false
      ∧ (playRun (playStep st PlayEvent.stop) events).submitted = st.submitted
      ∧ (playRun (playStep st PlayEvent.stop) events).isSpeaking = false)
    ∧ (st.queued = none → playStep st PlayEvent.stop = st) := by
  constructor
  · intro h
    have hstop : playStep st PlayEvent.stop
        = { st with queued := none, isSpeaking := false } := by
      simp [playStep, h]
    have hfix : playRun (playStep st PlayEvent.stop) events = playStep st PlayEvent.stop :=
      playRun_idle _ _ (by rw [hstop])
    refine ⟨by rw [hstop], by rw [hfix, hstop], by rw [hfix, hstop]⟩
  · intro h
    simp [playStep, h]

/-- C5 witness: with chunk 0 of two chunks playing, stop clears `isPlaying`
and two subsequent completion events submit nothing new; and in an idle
state stop changes nothing. -/
theorem claim_C5_stop_witness :
    (playStep
      ({ chunks := [['a'], ['b']], queued := some 0, isSpeaking := true,
         submitted := [['a']] } : PlaybackState) PlayEvent.stop).isSpeaking = false
    ∧ (playRun
        (playStep
          ({ chunks := [['a'], ['b']], queued := some 0, isSpeaking := true,
             submitted := [['a']] } : PlaybackState) PlayEvent.stop)
        [PlayEvent.finish, PlayEvent.finish]).submitted = [['a']]
    ∧ playStep
        ({ chunks := [], queued := none, isSpeaking := false,
           submitted := [] } : PlaybackState) PlayEvent.stop
      = { chunks := [], queued := none, isSpeaking := false, submitted := [] } :=
  ⟨((claim_C5_stop
      { chunks := [['a'], ['b']], queued := some 0, isSpeaking := true, submitted := [['a']] }
      [PlayEvent.finish, PlayEvent.finish]).1 rfl).1,
   ((claim_C5_stop
      { chunks := [['a'], ['b']], queued := some 0, isSpeaking := true, submitted := [['a']] }
      [PlayEvent.finish, PlayEvent.finish]).1 rfl).2.1,
   (claim_C5_stop
      { chunks := [], queued := none, isSpeaking := false, submitted := [] } []).2 rfl⟩

/-! ## Lemmas about the response generator -/

theorem generateAIResponse_error (st : ComponentState) (e : GenError) :
    (generateAIResponse st (Except.error e)).state.text = st.text
    ∧ (generateAIResponse st (Except.error e)).state.response = st.response
    ∧ ((generateAIResponse st (Except.error e)).called = true →
        (generateAIResponse st (Except.error e)).errorsShown = 1) := by
  unfold generateAIResponse
  by_cases hT : (!(jsTrim st.text).isEmpty) = true
  · rw [if_pos hT]
    exact ⟨rfl, rfl, fun _ => rfl⟩
  · rw [if_neg hT]
    exact ⟨rfl, rfl, fun hcalled => absurd hcalled (by simp)⟩

/-! ## Claim theorems for the response generator -/

/-- C6: whenever the response effect actually issues a generation call and
that call fails, the finalized transcript is left unchanged, the reply text
is neither set nor modified, nothing is handed to playback, and exactly one
user-visible failure notification is emitted. -/
theorem claim_C6_failure_handling (st : ComponentState) (e : GenError)
    (h : (responseEffect st (Except.error e)).called = true) :
    (responseEffect st (Except.error e)).state.text = st.text
    ∧ (responseEffect st (Except.error e)).state.response = st.response
    ∧ (responseEffect st (Except.error e)).spoken = none
    ∧ (responseEffect st (Except.error e)).errorsShown = 1 := by
  unfold responseEffect at h ⊢
  by_cases hc : (!st.isListening && !(jsTrim st.text).isEmpty) = true
  · rw [if_pos hc] at h ⊢
    refine ⟨(generateAIResponse_error st e).1, (generateAIResponse_error st e).2.1, ?_,
      (generateAIResponse_error st e).2.2 h⟩
    unfold generateAIResponse
    rw [if_pos (by simp only [Bool.and_eq_true] at hc; exact hc.2)]
  · rw [if_neg hc] at h
    simp at h

/-- C6 witness: a concrete failing call from a non-listening state with
transcript `"hi"` leaves the transcript and reply unchanged and shows
exactly one notification. -/
theorem claim_C6_failure_handling_witness :
    (responseEffect { isListening := false, text := ['h', 'i'], interim := [], isResponding := false, response := ['o', 'l', 'd'] } (Except.error GenError.remoteFailure)).state.text = ['h', 'i']
    ∧ (responseEffect { isListening := false, text := ['h', 'i'], interim := [], isResponding := false, response := ['o', 'l', 'd'] } (Except.error GenError.remoteFailure)).state.response = ['o', 'l', 'd']
    ∧ (responseEffect { isListening := false, text := ['h', 'i'], interim := [], isResponding := false, response := ['o', 'l', 'd'] } (Except.error GenError.remoteFailure)).spoken = none
    ∧ (responseEffect { isListening := false, text := ['h', 'i'], interim := [], isResponding := false, response := ['o', 'l', 'd'] } (Except.error GenError.remoteFailure)).errorsShown = 1 :=
  claim_C6_failure_handling { isListening := false, text := ['h', 'i'], interim := [], isResponding := false, response := ['o', 'l', 'd'] } GenError.remoteFailure (by decide)

/-- C7: the response effect issues a generation call only when the component
is not listening and the finalized transcript is non-blank after trimming
whitespace — generation is never triggered while the recognition session is
still listening. -/
theorem claim_C7_generation_guard (st : ComponentState) (o : Except GenError Str)
    (h : (responseEffect st o).called = true) :
    st.isListening = false ∧ jsTrim st.text ≠ [] := by
  unfold responseEffect at h
  by_cases hc : (!st.isListening && !(jsTrim st.text).isEmpty) = true
  · simp only [Bool.and_eq_true, Bool.not_eq_true'] at hc
    refine ⟨hc.1, fun heq => ?_⟩
    rw [heq] at hc
    simp at hc
  · rw [if_neg hc] at h
    simp at h

/-- C7 witness: a concrete successful call from a non-listening state with
transcript `"hi"` is indeed issued, and the guard conditions hold there. -/
theorem claim_C7_generation_guard_witness :
    ({ isListening := false, text := ['h', 'i'], interim := [], isResponding := false, response := [] } : ComponentState).isListening = false
    ∧ jsTrim ({ isListening := false, text := ['h', 'i'], interim := [], isResponding := false, response := [] } : ComponentState).text ≠ [] :=
  claim_C7_generation_guard { isListening := false, text := ['h', 'i'], interim := [], isResponding := false, response := [] } (Except.ok ['y']) (by decide)

/-- C8: for every prompt `p`, the string handed to the text-generation
capability is exactly `p` followed by the fixed brevity-instruction suffix —
the remote is invoked on `p ++ brevitySuffix` and on nothing else, and its
verdict on that exact string is what the call returns. -/
theorem claim_C8_prompt_shaping (remote : Str → Except GenError Str)
    (st : GeminiHookState) (p : Str) :
    (generateContent remote st p).2 = remote (p ++ brevitySuffix) := by
  unfold generateContent
  cases h : remote (p ++ brevitySuffix) <;> simp [h]

/-- C9: a missing or falsy API credential (environment variable absent, or
set to the empty string) is a fatal module-initialization error, while a
present non-empty credential initializes successfully; and
`generateContent` performs no per-call credential check — its success or
failure coincides exactly with the remote call's, so with the credential
present it can never fail for the reason of a missing credential. -/
theorem claim_C9_credential_handling :
    moduleInit none = Except.error InitError.missingKey
    ∧ moduleInit (some []) = Except.error InitError.missingKey
    ∧ (∀ k : Str, k ≠ [] → moduleInit (some k) = Except.ok k)
    ∧ (∀ (remote : Str → Except GenError Str) (st : GeminiHookState) (p : Str),
        isOkE (generateContent remote st p).2 = isOkE (remote (p ++ brevitySuffix))) := by
  refine ⟨rfl, rfl, fun k hk => ?_, fun remote st p => ?_⟩
  · simp [moduleInit, List.isEmpty_iff, hk]
  · unfold generateContent
    cases h : remote (p ++ brevitySuffix) <;> simp [h, isOkE]

/-- C9 witness: a concrete non-empty credential initializes successfully. -/
theorem claim_C9_credential_handling_witness :
    (['k'] : Str) ≠ [] ∧ moduleInit (some ['k']) = Except.ok ['k'] :=
  ⟨by decide, claim_C9_credential_handling.2.2.1 ['k'] (by decide)⟩

end ConvBot
